import Mathlib

/-!
Shallow embedding of the audio converter `src/flac2ogg.py` and proofs of the
behavioural claims about it.

Conventions of the embedding:
* Python strings are Lean `String`s; character-level operations work on
  `List Char`, matching CPython semantics on code points.
* The filesystem is a list of existing paths (`List String`).
* Fallible Python code (statements that may raise) is embedded as
  `Except PyErr`; outcomes of the external collaborators (subprocess calls and
  the mutagen tag library) are supplied by explicit environment records so the
  orchestration logic itself stays pure and executable.
-/

set_option linter.unusedVariables false

/-- Decidable equality for `Except`, used to evaluate embedded fallible code on
concrete inputs. -/
instance exceptDecEq {ε α : Type} [DecidableEq ε] [DecidableEq α] : DecidableEq (Except ε α)
  | .ok a, .ok b =>
    if h : a = b then .isTrue (by rw [h]) else .isFalse (fun q => by cases q; exact h rfl)
  | .error a, .error b =>
    if h : a = b then .isTrue (by rw [h]) else .isFalse (fun q => by cases q; exact h rfl)
  | .ok _, .error _ => .isFalse (fun q => by cases q)
  | .error _, .ok _ => .isFalse (fun q => by cases q)

/-! ## Python string primitives -/

/-- Python `str.split(sep)` for a one-character separator: `n` separators yield
`n + 1` parts, so a string without the separator yields the one-element list. -/
def pySplitChar (sep : Char) : List Char → List (List Char)
  | [] => [[]]
  | c :: rest =>
    match pySplitChar sep rest with
    | h :: t => if c = sep then [] :: h :: t else (c :: h) :: t
    | [] => [[c]]

/-- Whitespace stripped by Python `str.strip()`. -/
def isPySpace (c : Char) : Bool :=
  c = ' ' || c = '\t' || c = '\n' || c = '\r' || c = '\x0b' || c = '\x0c'

/-- Python `str.strip()`: remove leading and trailing whitespace. -/
def pyStrip (cs : List Char) : List Char :=
  ((cs.dropWhile isPySpace).reverse.dropWhile isPySpace).reverse

/-- Python `str.upper()`; the cue directives compared against are ASCII, where
`Char.toUpper` agrees with CPython. -/
def pyUpper (cs : List Char) : List Char := cs.map Char.toUpper

/-- Python `str.lower()` on the ASCII extensions used by the registry. -/
def pyLower (s : String) : String := String.mk (s.toList.map Char.toLower)

/-- Python substring containment `needle in hay`. -/
def listContains (needle : List Char) : List Char → Bool
  | [] => needle.isEmpty
  | c :: rest => needle.isPrefixOf (c :: rest) || listContains needle rest

/-- Index of the last occurrence of `c` in `cs`, if any. -/
def lastIndexOf (c : Char) (cs : List Char) : Option Nat :=
  match cs.reverse.findIdx? (fun x => x == c) with
  | none => none
  | some i => some (cs.length - 1 - i)

/-- Python `os.path.splitext` (posix): split at the last dot of the basename,
unless every character before it in the basename is a dot. -/
def splitext (p : String) : String × String :=
  let cs := p.toList
  let start := ((lastIndexOf '/' cs).map (fun i => i + 1)).getD 0
  match lastIndexOf '.' cs with
  | none => (p, "")
  | some d =>
    if d < start then (p, "")
    else if ((cs.drop start).take (d - start)).all (fun c => c == '.') then (p, "")
    else (String.mk (cs.take d), String.mk (cs.drop d))

/-- Python `os.path.join` for the relative two-argument uses in this program. -/
def pyJoin (dir name : String) : String :=
  if name.toList.head? == some '/' then name
  else if dir.toList == [] then name
  else if dir.toList.getLast? == some '/' then dir ++ name
  else dir ++ "/" ++ name

/-- CPython string comparison: lexicographic on code points. -/
def listLe : List Char → List Char → Bool
  | [], _ => true
  | _ :: _, [] => false
  | a :: as, b :: bs => if a < b then true else if b < a then false else listLe as bs

/-- Python `<=` on strings. -/
def pyLe (a b : String) : Bool := listLe a.toList b.toList

/-- Stable insertion of one string into an ascending list. -/
def pyInsert (x : String) : List String → List String
  | [] => [x]
  | y :: ys => if pyLe y x then y :: pyInsert x ys else x :: y :: ys

/-- Python `sorted()` on strings: ascending, lexicographic by code point. -/
def pySortList : List String → List String
  | [] => []
  | x :: xs => pyInsert x (pySortList xs)

/-! ## Errors -/

/-- Python exceptions arising in the embedded code paths. -/
inductive PyErr where
  /-- IndexError from list subscripting. -/
  | indexError
  /-- CalledProcessError raised by subprocess.check_call on non-zero exit. -/
  | externalTool
  /-- Exception while reading the source file tags, _tag_file lines 235-238. -/
  | tagReadSource
  /-- Exception while opening or writing the output tag object, lines 245-253. -/
  | tagReadOut
  /-- Exception from the first out_tag.save(), line 254. -/
  | tagSave
  /-- FileNotFoundError from os.unlink on a missing file, line 221. -/
  | unlinkMissing
deriving DecidableEq

/-! ## Cue parser (CueObjectParser, lines 82-135) -/

/-- CueTrack (lines 82-86). -/
structure CueTrack where
  performer : Option String
  title : Option String
deriving DecidableEq

/-- The album-level data plus ordered track list produced by the parser. -/
structure CueSheet where
  album_artist : Option String
  album : Option String
  tracks : List CueTrack
deriving DecidableEq

/-- CueObjectParser.get_track_data (lines 98-99): plain subscripting, raises
IndexError when the index is past the last parsed track. -/
def get_track_data (c : CueSheet) (index : Nat) : Except PyErr (Option String × Option String) :=
  match c.tracks[index]? with
  | some t => .ok (t.title, t.performer)
  | none => .error .indexError

/-- Mutable state of the _parse_cue loop (lines 106-107 plus the fields of
the parser object). -/
structure PState where
  in_track : Bool
  album_artist : Option String
  album : Option String
  tracks : List CueTrack
deriving DecidableEq

/-- Python `line.split('"')[1]`: the text after the first double quote and
before the second when there is one; IndexError when the line has no quote. -/
def splitQuote1 (line : List Char) : Except PyErr String :=
  match (pySplitChar '"' line)[1]? with
  | some cs => .ok (String.mk cs)
  | none => .error .indexError

/-- Update of the track object currently referenced by the loop variable,
which is always the last track appended (in_track is only set when a track
has been appended). -/
def setLast (f : CueTrack → CueTrack) : List CueTrack → List CueTrack
  | [] => []
  | [t] => [f t]
  | t :: rest => t :: setLast f rest

/-- Recognition of a REM line on the stripped upper-cased text (line 111). -/
def remP (up : List Char) : Bool := ['R', 'E', 'M'].isPrefixOf up

/-- Recognition of a PERFORMER line (lines 114, 129). -/
def performerP (up : List Char) : Bool :=
  ['P', 'E', 'R', 'F', 'O', 'R', 'M', 'E', 'R'].isPrefixOf up

/-- Recognition of a TITLE line (lines 118, 133). -/
def titleP (up : List Char) : Bool := ['T', 'I', 'T', 'L', 'E'].isPrefixOf up

/-- Recognition of a TRACK line: containment anywhere in the stripped
upper-cased line (line 122). -/
def trackP (up : List Char) : Bool := listContains ['T', 'R', 'A', 'C', 'K'] up

/-- One iteration of the _parse_cue line loop (lines 109-135), with the
branches in source order. -/
def parse_line (st : PState) (line : List Char) : Except PyErr PState :=
  let up := pyUpper (pyStrip line)
  if !st.in_track && remP up then .ok st
  else if !st.in_track && performerP up then
    (splitQuote1 line).map (fun v => { st with album_artist := some v })
  else if !st.in_track && titleP up then
    (splitQuote1 line).map (fun v => { st with album := some v })
  else if trackP up then
    .ok { st with in_track := true, tracks := st.tracks ++ [⟨none, none⟩] }
  else if st.in_track && performerP up then
    (splitQuote1 line).map
      (fun v => { st with tracks := setLast (fun t => { t with performer := some v }) st.tracks })
  else if st.in_track && titleP up then
    (splitQuote1 line).map
      (fun v => { st with tracks := setLast (fun t => { t with title := some v }) st.tracks })
  else .ok st

/-- CueObjectParser._parse_cue (lines 101-135): fold the line loop over
content.split of the newline character; an uncaught IndexError aborts the
construction of the parser object. -/
def parse_cue (text : String) : Except PyErr CueSheet := do
  let st ← (pySplitChar '\n' text.toList).foldlM parse_line ⟨false, none, none, []⟩
  pure ⟨st.album_artist, st.album, st.tracks⟩

/-! ## Encoders (lines 138-178) -/

/-- Which Encoder subclass was instantiated. -/
inductive EncoderKind
  | ogg
  | mp3
deriving DecidableEq

/-- An Encoder instance: quality plus the output extension self.ext. -/
structure Encoder where
  kind : EncoderKind
  quality : Nat
  ext : String
deriving DecidableEq

/-- OggEncoder.__init__ (lines 155-159): default quality 8, EXT ".ogg". -/
def mkOggEncoder (quality : Option Nat) : Encoder := ⟨.ogg, quality.getD 8, ".ogg"⟩

/-- Mp3Encoder.__init__ (lines 170-174): default quality 6, EXT ".mp3". -/
def mkMp3Encoder (quality : Option Nat) : Encoder := ⟨.mp3, quality.getD 6, ".mp3"⟩

/-- Argument vector of Encoder.encode (lines 161-163 and 176-178). -/
def encoder_command (e : Encoder) (input output : String) : List String :=
  match e.kind with
  | .ogg => ["oggenc", "-q" ++ toString e.quality, input, "-o", output]
  | .mp3 => ["lame", "-V" ++ toString e.quality, input, output]

/-! ## File-type objects (lines 181-351) -/

/-- The FileType subclass dispatched from Converter.extract_map (lines 356-362). -/
inductive FileKind
  | flac
  | ape
  | wv
  | m4a
  | wav
  | mp3
  | ogg
deriving DecidableEq

/-- One conversion job: the fields of a FileType instance. -/
structure Job where
  filename : String
  kind : FileKind
  encoder : Encoder
  base : String
  ext : String
  wav : String
  tmp_wav_remove : Bool
  album : Option String
  album_artist : Option String
  title : Option String
  performer : Option String
deriving DecidableEq

/-- FileType.__init__ (lines 186-202). -/
def mkFileType (filename : String) (kind : FileKind) (encoder : Encoder) : Job :=
  let be := splitext filename
  { filename := filename
    kind := kind
    encoder := encoder
    base := be.1
    ext := pyLower be.2
    wav := be.1 ++ ".wav"
    tmp_wav_remove := true
    album := none
    album_artist := none
    title := none
    performer := none }

/-- WavType.__init__ (lines 329-332): the intermediate is the source itself and
the job does not own it. -/
def mkWavType (filename : String) (encoder : Encoder) : Job :=
  { mkFileType filename .wav encoder with wav := filename, tmp_wav_remove := false }

/-- Comma escaping applied by M4aType.extract_wav before calling mplayer
(lines 319-321). -/
def m4aEscape (s : String) : String :=
  String.mk (s.toList.foldr (fun c acc => if c = ',' then '\\' :: ',' :: acc else c :: acc) [])

/-- External processes invoked by each extract_wav override; WavType invokes
none (lines 290-351). -/
def extract_commands (j : Job) : List (List String) :=
  match j.kind with
  | .flac => [["flac", "-d", j.filename]]
  | .ape => [["mac", j.filename, j.wav, "-d"]]
  | .wv => [["wvunpack", j.filename, "-o", j.wav]]
  | .m4a => [["mplayer", "-vo", "none", j.filename, "-ao", "pcm:file=" ++ m4aEscape j.wav]]
  | .wav => []
  | .mp3 => [["lame", "--decode", j.filename, j.wav]]
  | .ogg => [["oggdec", j.filename]]

/-! ## Output-path selection (FileType._get_output_fn, lines 223-230) -/

/-- Length of the longest path in the filesystem model; used only to justify
termination of the probing loop on a finite filesystem. -/
def maxLen (fs : List String) : Nat := fs.foldr (fun s m => max s.length m) 0

/-- The while loop of _get_output_fn: while os.path.exists(out + ext), append
the suffix. -/
def getOutAux (fs : List String) (ext : String) (out : String) : String :=
  if h : (out ++ ext) ∈ fs then getOutAux fs ext (out ++ "_encoded_") else out ++ ext
termination_by maxLen fs + 1 - out.length
decreasing_by
  have hlen : ∀ (l : List String) (s : String), s ∈ l → s.length ≤ maxLen l := by
    intro l
    induction l with
    | nil => intro s hs; cases hs
    | cons a t ih =>
      intro s hs
      cases hs with
      | head => simp [maxLen]
      | tail _ hm =>
        have h2 := ih _ hm
        simp [maxLen]
        exact Or.inr h2
  have h1 : (out ++ ext).length ≤ maxLen fs := hlen fs _ h
  rw [String.length_append] at h1
  rw [String.length_append]
  have h9 : ("_encoded_" : String).length = 9 := by decide
  rw [h9]
  omega

/-- FileType._get_output_fn (lines 223-230): the probe starts at self.base. -/
def get_output_fn (fs : List String) (base ext : String) : String := getOutAux fs ext base

/-- The candidate output names in probe order: base + ext, then with one
disambiguation suffix, then two, and so on. -/
def candidate (base ext : String) : Nat → String
  | 0 => base ++ ext
  | n + 1 => candidate (base ++ "_encoded_") ext n

/-! ## Tagging (FileType._tag_file and _mp3_tag, lines 232-284) -/

/-- A mutagen tag object as an ordered key-value store; mutagen stores each
value as a list of strings. -/
abbrev Tags := List (String × List String)

/-- Python dict-style assignment tag[k] = v: overwrite in place, or append. -/
def setKey (t : Tags) (k : String) (v : List String) : Tags :=
  if t.any (fun p => p.1 == k) then t.map (fun p => if p.1 == k then (k, v) else p)
  else t ++ [(k, v)]

/-- Lookup of a tag field. -/
def getKey (t : Tags) (k : String) : Option (List String) :=
  (t.find? (fun p => p.1 == k)).map (fun p => p.2)

/-- Python dict.update semantics of out_tag.update(tag) at line 257: every
field of the source overwrites the field of the output. -/
def tagsUpdate (out src : Tags) : Tags :=
  src.foldl (fun acc kv => setKey acc kv.1 kv.2) out

/-- One guarded override such as `if self.album: out_tag['album'] = self.album`
(lines 246-253): Python truthiness skips both None and the empty string. -/
def setIfTruthy (t : Tags) (k : String) (v : Option String) : Tags :=
  match v with
  | some s => if s == "" then t else setKey t k [s]
  | none => t

/-- The four override assignments of _tag_file in source order (lines 246-253):
album, albumartist, performer to artist, title. -/
def applyOverrides (j : Job) (t : Tags) : Tags :=
  setIfTruthy
    (setIfTruthy
      (setIfTruthy
        (setIfTruthy t "album" j.album)
        "albumartist" j.album_artist)
      "artist" j.performer)
    "title" j.title

/-- Outcomes of the mutagen library calls made by _tag_file; the library is an
external collaborator, so each call's result is an input of the embedding. -/
structure TagEnv where
  /-- Result of reading the source tags (lines 235-238); none means the read
  raises. -/
  sourceTags : Option Tags
  /-- Result of mutagen.File(self.out_fname) at line 245 as a usable tag
  object; none means opening or writing it raises. -/
  outTags : Option Tags
  /-- Whether the first out_tag.save() at line 254 succeeds. -/
  save1Ok : Bool
  /-- Whether the guarded merge (out_tag.update(tag); out_tag.save(), lines
  256-258) completes; when it does not, the bare except swallows the error and
  the tags persisted by the first save remain. -/
  mergeOk : Bool
  /-- Keys accepted by EasyID3; assigning any other key raises
  EasyID3KeyError (lines 275-282). -/
  easyKeys : List String
deriving DecidableEq

/-- The comparison `self.encoder == 'mp3'` at line 241: self.encoder holds an
Encoder instance while the right side is a str; neither class defines
custom equality, so CPython falls back to identity, and an Encoder instance is
never the same object as a str. The comparison is False for every encoder. -/
def encoderEqMp3Str (e : Encoder) : Bool := false

/-- FileType._mp3_tag (lines 262-284): fresh EasyID3 tags, overrides for
album, artist and title (no albumartist), then a per-key copy of the source
tags where list values are comma-joined and unknown keys are skipped. -/
def mp3_tag (j : Job) (src : Tags) (env : TagEnv) : Except PyErr Tags :=
  let t1 := setIfTruthy ([] : Tags) "album" j.album
  let t2 := setIfTruthy t1 "artist" j.performer
  let t3 := setIfTruthy t2 "title" j.title
  let t4 := src.foldl
    (fun acc kv =>
      if env.easyKeys.contains kv.1 then setKey acc kv.1 [String.intercalate ", " kv.2]
      else acc) t3
  .ok t4

/-- FileType._tag_file (lines 232-260), returning the tags finally persisted
in the output file. Only the merge of lines 256-258 sits inside try/except;
every other statement propagates its exception and aborts the job. -/
def tag_file (j : Job) (env : TagEnv) : Except PyErr Tags :=
  match env.sourceTags with
  | none => .error .tagReadSource
  | some src =>
    if encoderEqMp3Str j.encoder then mp3_tag j src env
    else
      match env.outTags with
      | none => .error .tagReadOut
      | some out0 =>
        let out1 := applyOverrides j out0
        if !env.save1Ok then .error .tagSave
        else if env.mergeOk then .ok (tagsUpdate out1 src)
        else .ok out1

/-- The body of _tag_file with the line-241 guard removed: the generic (non
mp3-special-cased) tagging path. -/
def tag_file_generic (j : Job) (env : TagEnv) : Except PyErr Tags :=
  match env.sourceTags with
  | none => .error .tagReadSource
  | some src =>
    match env.outTags with
    | none => .error .tagReadOut
    | some out0 =>
      let out1 := applyOverrides j out0
      if !env.save1Ok then .error .tagSave
      else if env.mergeOk then .ok (tagsUpdate out1 src)
      else .ok out1

/-! ## Job execution (FileType.encode and cleanup, lines 208-221) -/

/-- The five statements of FileType.encode (lines 210-214). -/
inductive Step
  | choosePath
  | extract
  | encodeStep
  | tag
  | cleanup
deriving DecidableEq

/-- Execution state threaded through one job: the filesystem, the assigned
output name, and the trace of steps started so far. -/
structure ExecSt where
  fs : List String
  out_fname : Option String
  log : List Step
deriving DecidableEq

/-- Outcomes of the external tools for one job run. -/
structure World where
  fs : List String
  extractOk : Bool
  encodeOk : Bool
  tagEnv : TagEnv
deriving DecidableEq

/-- Line 210: self.out_fname = self._get_output_fn(). -/
def step_choose_path (j : Job) (s : ExecSt) : ExecSt :=
  { s with
      out_fname := some (get_output_fn s.fs j.base j.encoder.ext)
      log := s.log ++ [Step.choosePath] }

/-- Line 211: self.extract_wav(); every type except WavType invokes an
external process that produces self.wav, WavType does nothing. -/
def step_extract (j : Job) (ok : Bool) (s : ExecSt) : ExecSt × Option PyErr :=
  let s1 := { s with log := s.log ++ [Step.extract] }
  match extract_commands j with
  | [] => (s1, none)
  | _ =>
    if ok then ({ s1 with fs := j.wav :: s1.fs }, none)
    else (s1, some PyErr.externalTool)

/-- Line 212: self.encoder.encode(self.wav, self.out_fname); on success the
output file exists. The none branch is unreachable because encode() assigns
out_fname on its first line. -/
def step_encode (ok : Bool) (s : ExecSt) : ExecSt × Option PyErr :=
  let s1 := { s with log := s.log ++ [Step.encodeStep] }
  match s.out_fname with
  | some out =>
    if ok then ({ s1 with fs := out :: s1.fs }, none)
    else (s1, some PyErr.externalTool)
  | none => (s1, some PyErr.externalTool)

/-- Line 213: self._tag_file(). -/
def step_tag (j : Job) (env : TagEnv) (s : ExecSt) : ExecSt × Except PyErr Tags :=
  ({ s with log := s.log ++ [Step.tag] }, tag_file j env)

/-- FileType.cleanup (lines 216-221): return unless the job owns the
intermediate, else os.unlink(self.wav). -/
def cleanup_step (j : Job) (fs : List String) : Except PyErr (List String) :=
  if j.tmp_wav_remove then
    if j.wav ∈ fs then .ok (fs.erase j.wav) else .error .unlinkMissing
  else .ok fs

/-- Line 214: self.cleanup(). -/
def step_cleanup (j : Job) (s : ExecSt) : ExecSt × Option PyErr :=
  let s1 := { s with log := s.log ++ [Step.cleanup] }
  match cleanup_step j s.fs with
  | .ok fs2 => ({ s1 with fs := fs2 }, none)
  | .error e => (s1, some e)

/-- Result of one job run. -/
structure RunOut where
  st : ExecSt
  err : Option PyErr
  tags : Option Tags
deriving DecidableEq

/-- Sequencing of one statement of encode(): an uncaught exception aborts the
job with the state reached so far, otherwise execution continues. -/
def seqStep (p : ExecSt × Option PyErr) (k : ExecSt → RunOut) : RunOut :=
  match p.2 with
  | some e => ⟨p.1, some e, none⟩
  | none => k p.1

/-- Sequencing of the tagging statement, whose uncaught exceptions carry the
tag result type. -/
def seqTag (p : ExecSt × Except PyErr Tags) (k : ExecSt → Tags → RunOut) : RunOut :=
  match p.2 with
  | .error e => ⟨p.1, some e, none⟩
  | .ok tg => k p.1 tg

/-- End of encode() after cleanup: either the cleanup exception or success. -/
def seqCleanup (p : ExecSt × Option PyErr) (tg : Tags) : RunOut :=
  match p.2 with
  | some e => ⟨p.1, some e, some tg⟩
  | none => ⟨p.1, none, some tg⟩

/-- FileType.encode (lines 208-214): the five statements in source order; an
uncaught exception in any statement aborts the job at that point. -/
def run_encode (j : Job) (w : World) : RunOut :=
  seqStep (step_extract j w.extractOk (step_choose_path j ⟨w.fs, none, []⟩)) fun s2 =>
    seqStep (step_encode w.encodeOk s2) fun s3 =>
      seqTag (step_tag j w.tagEnv s3) fun s4 tg =>
        seqCleanup (step_cleanup j s4) tg

/-! ## Splitter (match_file and Converter._split_file, lines 47-56, 390-433) -/

/-- Tail check after a candidate underscore: at least one digit, then exactly
one arbitrary non-newline character (the unescaped dot of the pattern), then
the literal letters wav at the very end. -/
def fragTail (m : List Char) : Bool :=
  decide (5 ≤ m.length) &&
  (m.drop (m.length - 3) == ['w', 'a', 'v']) &&
  (match m[m.length - 4]? with
   | some c => !(c == '\n')
   | none => false) &&
  ((m.take (m.length - 4)).all Char.isDigit)

/-- re.match of the anchored pattern of match_file (line 50): anything, an
underscore, one or more digits, any single character, then wav at the end of
the name. The dot in the source pattern is unescaped, so it matches any
character except newline; the trailing anchor also matches just before one
final newline, and the leading wildcard cannot cross a newline. -/
def fragMatch (s : String) : Bool :=
  let cs0 := s.toList
  let cs := if cs0.getLast? == some '\n' then cs0.dropLast else cs0
  (List.range cs.length).any (fun i =>
    ((cs.take i).all (fun c => !(c == '\n'))) && (cs[i]? == some '_') &&
    fragTail (cs.drop (i + 1)))

/-- match_file (lines 47-56): keep the listing entries matching the pattern,
join each with the directory, and return them sorted. -/
def match_file (dirPath : String) (listing : List String) : List String :=
  pySortList ((listing.filter fragMatch).map (pyJoin dirPath))

/-- One fragment job built by the loop of Converter._split_file (lines
424-431): a WavType whose tmp_wav_remove is forced back to True, annotated
with the album data and the positional track data from the cue sheet. -/
def mkFragJob (filename : String) (enc : Encoder) (cue : CueSheet)
    (td : Option String × Option String) : Job :=
  { mkWavType filename enc with
      tmp_wav_remove := true
      album := cue.album
      album_artist := cue.album_artist
      title := td.1
      performer := td.2 }

/-- The enumerate loop of _split_file (lines 424-431): one job per matched
file; get_track_data may raise IndexError, which nothing catches, so the
whole construction aborts. -/
def split_jobs (cue : CueSheet) (enc : Encoder) : Nat → List String → Except PyErr (List Job)
  | _, [] => .ok []
  | i, f :: rest =>
    match get_track_data cue i with
    | .error e => .error e
    | .ok td =>
      match split_jobs cue enc (i + 1) rest with
      | .error e => .error e
      | .ok js => .ok (mkFragJob f enc cue td :: js)

/-- Fragment-job construction of Converter._split_file (lines 423-431):
enumerate the sorted matches of the source directory. -/
def split_file_jobs (cue : CueSheet) (enc : Encoder) (dirPath : String)
    (listing : List String) : Except PyErr (List Job) :=
  split_jobs cue enc 0 (match_file dirPath listing)

/-! ## Concrete fixtures used by the closed evaluation theorems -/

/-- An OggEncoder built with the default quality, as main() does for -e ogg. -/
def oggE : Encoder := mkOggEncoder none

/-- A flac job for a.flac, as Converter._prepare_files builds it. -/
def jFlac : Job := mkFileType "a.flac" FileKind.flac oggE

/-- A flac job carrying a cue-derived title, the C1 scenario. -/
def jCue : Job := { jFlac with title := some "Cue" }

/-- A tag environment whose source file provides its own title and where every
library call succeeds. -/
def envBoth : TagEnv :=
  { sourceTags := some [("title", ["Src"])]
    outTags := some []
    save1Ok := true
    mergeOk := true
    easyKeys := [] }

/-- A world where every external call succeeds. -/
def wAllOk : World :=
  { fs := []
    extractOk := true
    encodeOk := true
    tagEnv := { sourceTags := some [], outTags := some [], save1Ok := true, mergeOk := true,
                easyKeys := [] } }

/-- A world where reading the source tags raises. -/
def wBadTagRead : World :=
  { fs := []
    extractOk := true
    encodeOk := true
    tagEnv := { sourceTags := none, outTags := some [], save1Ok := true, mergeOk := true,
                easyKeys := [] } }

/-- A world where only the guarded tag merge fails. -/
def wMergeFail : World :=
  { fs := ["a.wav"]
    extractOk := true
    encodeOk := true
    tagEnv := { sourceTags := some [], outTags := some [], save1Ok := true, mergeOk := false,
                easyKeys := [] } }

/-- A one-track cue sheet. -/
def cueOne : CueSheet := ⟨some "A", some "Alb", [⟨some "P1", some "T1"⟩]⟩

/-- A two-track cue sheet. -/
def cueTwo : CueSheet :=
  ⟨some "A", some "Alb", [⟨some "P1", some "T1"⟩, ⟨some "P2", some "T2"⟩]⟩

/-- The cue text of the spec scenario: album-level PERFORMER and TITLE followed
by two TRACK blocks with their own TITLE and PERFORMER. -/
def cueScenario : String :=
  "PERFORMER \"A\"\nTITLE \"Album\"\n  TRACK 01 AUDIO\n    TITLE \"T1\"\n    PERFORMER \"P1\"\n  TRACK 02 AUDIO\n    TITLE \"T2\"\n    PERFORMER \"P2\""

/-! ## Helper lemmas -/

theorem listLe_total (a b : List Char) : listLe a b = true ∨ listLe b a = true := by
  induction a generalizing b with
  | nil => left; rfl
  | cons x xs ih =>
    cases b with
    | nil => right; rfl
    | cons y ys =>
      rcases lt_trichotomy x y with h | h | h
      · left; simp [listLe, h]
      · subst h
        rcases ih ys with h2 | h2
        · left; simp [listLe, lt_irrefl, h2]
        · right; simp [listLe, lt_irrefl, h2]
      · right; simp [listLe, h]

theorem listLe_trans {a b c : List Char} (h1 : listLe a b = true) (h2 : listLe b c = true) :
    listLe a c = true := by
  induction a generalizing b c with
  | nil => rfl
  | cons x xs ih =>
    cases b with
    | nil => simp [listLe] at h1
    | cons y ys =>
      cases c with
      | nil => simp [listLe] at h2
      | cons z zs =>
        simp only [listLe] at h1 h2 ⊢
        rcases lt_trichotomy x y with hxy | hxy | hxy
        · rcases lt_trichotomy y z with hyz | hyz | hyz
          · simp [lt_trans hxy hyz]
          · subst hyz; simp [hxy]
          · simp [hyz, not_lt_of_lt hyz] at h2
        · subst hxy
          rcases lt_trichotomy x z with hyz | hyz | hyz
          · simp [hyz]
          · subst hyz
            simp [lt_irrefl] at h1 h2 ⊢
            exact ih h1 h2
          · simp [hyz, not_lt_of_lt hyz] at h2
        · simp [hxy, not_lt_of_lt hxy] at h1

theorem pyLe_total (a b : String) : pyLe a b = true ∨ pyLe b a = true :=
  listLe_total a.toList b.toList

theorem pyLe_trans {a b c : String} (h1 : pyLe a b = true) (h2 : pyLe b c = true) :
    pyLe a c = true :=
  listLe_trans h1 h2

theorem pyInsert_mem (x : String) (l : List String) (a : String) :
    a ∈ pyInsert x l ↔ a = x ∨ a ∈ l := by
  induction l with
  | nil => simp [pyInsert]
  | cons y ys ih =>
    unfold pyInsert
    by_cases h : pyLe y x = true
    · rw [if_pos h]
      simp only [List.mem_cons, ih]
      try tauto
    · rw [if_neg h]
      simp only [List.mem_cons]
      try tauto

theorem pySortList_mem (l : List String) (a : String) : a ∈ pySortList l ↔ a ∈ l := by
  induction l with
  | nil => simp [pySortList]
  | cons x xs ih => simp [pySortList, pyInsert_mem, ih]

theorem pyInsert_pairwise (x : String) (l : List String)
    (h : l.Pairwise (fun a b => pyLe a b = true)) :
    (pyInsert x l).Pairwise (fun a b => pyLe a b = true) := by
  induction l with
  | nil => simp [pyInsert]
  | cons y ys ih =>
    rcases List.pairwise_cons.mp h with ⟨hy, hys⟩
    unfold pyInsert
    by_cases hle : pyLe y x = true
    · rw [if_pos hle]
      refine List.pairwise_cons.mpr ⟨?_, ih hys⟩
      intro z hz
      rcases (pyInsert_mem x ys z).mp hz with rfl | hzys
      · exact hle
      · exact hy z hzys
    · rw [if_neg hle]
      have hxy : pyLe x y = true := (pyLe_total x y).resolve_right hle
      refine List.pairwise_cons.mpr ⟨?_, h⟩
      intro z hz
      rcases List.mem_cons.mp hz with rfl | hzys
      · exact hxy
      · exact pyLe_trans hxy (hy z hzys)

theorem pySortList_pairwise (l : List String) :
    (pySortList l).Pairwise (fun a b => pyLe a b = true) := by
  induction l with
  | nil => simp [pySortList]
  | cons x xs ih => exact pyInsert_pairwise x _ ih

theorem pySplitChar_cons (sep c : Char) (rest : List Char) :
    pySplitChar sep (c :: rest) =
      match pySplitChar sep rest with
      | h :: t => if c = sep then [] :: h :: t else (c :: h) :: t
      | [] => [[c]] := rfl

theorem pySplitChar_ne_nil (sep : Char) (cs : List Char) : pySplitChar sep cs ≠ [] := by
  cases cs with
  | nil => simp [pySplitChar]
  | cons c rest =>
    rw [pySplitChar_cons]
    rcases pySplitChar sep rest with _ | ⟨h1, t1⟩
    · simp
    · by_cases hc : c = sep <;> simp [hc]

theorem pySplitChar_no_sep (sep : Char) (cs : List Char) (h : sep ∉ cs) :
    pySplitChar sep cs = [cs] := by
  induction cs with
  | nil => rfl
  | cons c rest ih =>
    have hc : ¬ c = sep := fun e => h (e ▸ List.mem_cons_self c rest)
    have hrest : sep ∉ rest := fun m => h (List.mem_cons_of_mem _ m)
    rw [pySplitChar_cons, ih hrest]
    simp [hc]

theorem pySplitChar_append (sep : Char) (xs ys : List Char) (h : sep ∉ xs) :
    pySplitChar sep (xs ++ sep :: ys) = xs :: pySplitChar sep ys := by
  induction xs with
  | nil =>
    simp only [List.nil_append]
    rw [pySplitChar_cons]
    rcases hr : pySplitChar sep ys with _ | ⟨h1, t1⟩
    · exact absurd hr (pySplitChar_ne_nil sep ys)
    · simp
  | cons c rest ih =>
    have hc : ¬ c = sep := fun e => h (e ▸ List.mem_cons_self c rest)
    have hrest : sep ∉ rest := fun m => h (List.mem_cons_of_mem _ m)
    simp only [List.cons_append]
    rw [pySplitChar_cons, ih hrest]
    simp [hc]

theorem performerP_remP_false (up : List Char) (h : performerP up = true) :
    remP up = false := by
  cases up with
  | nil => simp [performerP, List.isPrefixOf] at h
  | cons c rest =>
    unfold performerP at h
    unfold remP
    simp only [List.isPrefixOf] at h ⊢
    simp only [Bool.and_eq_true] at h
    rcases h with ⟨hc, _⟩
    have hcp : c = 'P' := (beq_iff_eq.mp hc).symm
    subst hcp
    have hfirst : ('R' == 'P') = false := by decide
    rw [hfirst, Bool.false_and]

theorem titleP_remP_false (up : List Char) (h : titleP up = true) : remP up = false := by
  cases up with
  | nil => simp [titleP, List.isPrefixOf] at h
  | cons c rest =>
    unfold titleP at h
    unfold remP
    simp only [List.isPrefixOf] at h ⊢
    simp only [Bool.and_eq_true] at h
    rcases h with ⟨hc, _⟩
    have hct : c = 'T' := (beq_iff_eq.mp hc).symm
    subst hct
    have hfirst : ('R' == 'T') = false := by decide
    rw [hfirst, Bool.false_and]

theorem titleP_performerP_false (up : List Char) (h : titleP up = true) :
    performerP up = false := by
  cases up with
  | nil => simp [titleP, List.isPrefixOf] at h
  | cons c rest =>
    unfold titleP at h
    unfold performerP
    simp only [List.isPrefixOf] at h ⊢
    simp only [Bool.and_eq_true] at h
    rcases h with ⟨hc, _⟩
    have hct : c = 'T' := (beq_iff_eq.mp hc).symm
    subst hct
    have hfirst : ('P' == 'T') = false := by decide
    rw [hfirst, Bool.false_and]

theorem setLast_append (f : CueTrack → CueTrack) (ts : List CueTrack) (t : CueTrack) :
    setLast f (ts ++ [t]) = ts ++ [f t] := by
  induction ts with
  | nil => rfl
  | cons a r ih =>
    have hstep : setLast f (a :: (r ++ [t])) = a :: setLast f (r ++ [t]) := by
      cases hr : r ++ [t] with
      | nil => simp at hr
      | cons x xs => rfl
    simp only [List.cons_append]
    rw [hstep, ih]

theorem getOutAux_spec (fs : List String) (ext : String) (out : String) :
    ∃ n, getOutAux fs ext out = candidate out ext n
      ∧ candidate out ext n ∉ fs
      ∧ ∀ m, m < n → candidate out ext m ∈ fs := by
  induction out using getOutAux.induct fs ext with
  | case1 x hmem ih =>
    obtain ⟨n, h1, h2, h3⟩ := ih
    refine ⟨n + 1, ?_, h2, ?_⟩
    · rw [getOutAux, dif_pos hmem]
      exact h1
    · intro m hm
      cases m with
      | zero => exact hmem
      | succ k => exact h3 k (Nat.lt_of_succ_lt_succ hm)
  | case2 x hmem =>
    refine ⟨0, ?_, hmem, fun m hm => absurd hm (Nat.not_lt_zero m)⟩
    rw [getOutAux, dif_neg hmem]
    rfl

theorem get_output_fn_not_mem (fs : List String) (base ext : String) :
    get_output_fn fs base ext ∉ fs := by
  obtain ⟨n, h1, h2, _⟩ := getOutAux_spec fs ext base
  rw [get_output_fn, h1]
  exact h2

theorem step_choose_path_eval (j : Job) (s : ExecSt) :
    step_choose_path j s =
      ⟨s.fs, some (get_output_fn s.fs j.base j.encoder.ext), s.log ++ [Step.choosePath]⟩ := rfl

theorem step_extract_log (j : Job) (ok : Bool) (s : ExecSt) :
    (step_extract j ok s).1.log = s.log ++ [Step.extract] := by
  unfold step_extract
  cases hc : extract_commands j with
  | nil => rfl
  | cons a t => cases ok <;> rfl

theorem step_encode_log (ok : Bool) (s : ExecSt) :
    (step_encode ok s).1.log = s.log ++ [Step.encodeStep] := by
  unfold step_encode
  cases s.out_fname with
  | none => rfl
  | some o => cases ok <;> rfl

theorem step_tag_log (j : Job) (env : TagEnv) (s : ExecSt) :
    (step_tag j env s).1.log = s.log ++ [Step.tag] := rfl

theorem step_cleanup_log (j : Job) (s : ExecSt) :
    (step_cleanup j s).1.log = s.log ++ [Step.cleanup] := by
  unfold step_cleanup
  cases cleanup_step j s.fs <;> rfl

theorem tag_file_ok (j : Job) (env : TagEnv) (src out0 : Tags)
    (hs : env.sourceTags = some src) (ho : env.outTags = some out0)
    (hv : env.save1Ok = true) :
    tag_file j env =
      .ok (if env.mergeOk then tagsUpdate (applyOverrides j out0) src
           else applyOverrides j out0) := by
  unfold tag_file
  rw [hs, ho]
  simp only [encoderEqMp3Str, hv]
  by_cases hm : env.mergeOk = true <;> simp [hm]

theorem tag_file_src_error (j : Job) (env : TagEnv) (h : env.sourceTags = none) :
    tag_file j env = .error PyErr.tagReadSource := by
  unfold tag_file
  rw [h]

theorem tag_file_out_error (j : Job) (env : TagEnv) (src : Tags)
    (hs : env.sourceTags = some src) (h : env.outTags = none) :
    tag_file j env = .error PyErr.tagReadOut := by
  unfold tag_file
  rw [hs, h]
  simp [encoderEqMp3Str]

theorem tag_file_save_error (j : Job) (env : TagEnv) (src out0 : Tags)
    (hs : env.sourceTags = some src) (ho : env.outTags = some out0)
    (hv : env.save1Ok = false) :
    tag_file j env = .error PyErr.tagSave := by
  unfold tag_file
  rw [hs, ho]
  simp [encoderEqMp3Str, hv]

theorem seqStep_some (s : ExecSt) (e : PyErr) (k : ExecSt → RunOut) :
    seqStep (s, some e) k = ⟨s, some e, none⟩ := rfl

theorem seqStep_none (s : ExecSt) (k : ExecSt → RunOut) :
    seqStep (s, none) k = k s := rfl

theorem seqTag_error (s : ExecSt) (e : PyErr) (k : ExecSt → Tags → RunOut) :
    seqTag (s, .error e) k = ⟨s, some e, none⟩ := rfl

theorem seqTag_ok (s : ExecSt) (tg : Tags) (k : ExecSt → Tags → RunOut) :
    seqTag (s, .ok tg) k = k s tg := rfl

theorem seqCleanup_some (s : ExecSt) (e : PyErr) (tg : Tags) :
    seqCleanup (s, some e) tg = ⟨s, some e, some tg⟩ := rfl

theorem seqCleanup_none (s : ExecSt) (tg : Tags) :
    seqCleanup (s, none) tg = ⟨s, none, some tg⟩ := rfl

theorem run_encode_err_none (j : Job) (w : World)
    (h : (run_encode j w).err = none) :
    (run_encode j w).st.log =
      [Step.choosePath, Step.extract, Step.encodeStep, Step.tag, Step.cleanup] := by
  unfold run_encode at h ⊢
  rcases hA : step_extract j w.extractOk (step_choose_path j ⟨w.fs, none, []⟩) with ⟨s2, e2⟩
  rw [hA] at h
  have hl2 : s2.log = [Step.choosePath, Step.extract] := by
    have hh := step_extract_log j w.extractOk (step_choose_path j ⟨w.fs, none, []⟩)
    rw [hA] at hh
    simpa [step_choose_path] using hh
  cases e2 with
  | some e => rw [seqStep_some] at h; simp at h
  | none =>
    simp only [seqStep_none] at h ⊢
    rcases hB : step_encode w.encodeOk s2 with ⟨s3, e3⟩
    rw [hB] at h
    have hl3 : s3.log = [Step.choosePath, Step.extract, Step.encodeStep] := by
      have hh := step_encode_log w.encodeOk s2
      rw [hB] at hh
      simpa [hl2] using hh
    cases e3 with
    | some e => rw [seqStep_some] at h; simp at h
    | none =>
      simp only [seqStep_none] at h ⊢
      rcases hC : step_tag j w.tagEnv s3 with ⟨s4, r4⟩
      rw [hC] at h
      have hl4 : s4.log = [Step.choosePath, Step.extract, Step.encodeStep, Step.tag] := by
        have hh := step_tag_log j w.tagEnv s3
        rw [hC] at hh
        simpa [hl3] using hh
      cases r4 with
      | error e => rw [seqTag_error] at h; simp at h
      | ok tgv =>
        simp only [seqTag_ok] at h ⊢
        rcases hD : step_cleanup j s4 with ⟨s5, e5⟩
        rw [hD] at h
        have hl5 : s5.log =
            [Step.choosePath, Step.extract, Step.encodeStep, Step.tag, Step.cleanup] := by
          have hh := step_cleanup_log j s4
          rw [hD] at hh
          simpa [hl4] using hh
        cases e5 with
        | some e => rw [seqCleanup_some] at h; simp at h
        | none => rw [seqCleanup_none]; exact hl5

theorem run_encode_success_shape (j : Job) (w : World) (src out0 : Tags)
    (hex : extract_commands j = [] ∨ w.extractOk = true)
    (hen : w.encodeOk = true)
    (hs : w.tagEnv.sourceTags = some src) (ho : w.tagEnv.outTags = some out0)
    (hv : w.tagEnv.save1Ok = true)
    (hcl : j.tmp_wav_remove = false ∨ j.wav ∈ w.fs) :
    (run_encode j w).err = none
    ∧ (run_encode j w).st.log =
        [Step.choosePath, Step.extract, Step.encodeStep, Step.tag, Step.cleanup]
    ∧ ∀ x, x ∈ w.fs → (j.tmp_wav_remove = false ∨ x ≠ j.wav) →
        x ∈ (run_encode j w).st.fs := by
  have hs1 : step_choose_path j ⟨w.fs, none, []⟩ =
      ⟨w.fs, some (get_output_fn w.fs j.base j.encoder.ext), [Step.choosePath]⟩ := rfl
  have hextract : ∃ fsE,
      step_extract j w.extractOk
          ⟨w.fs, some (get_output_fn w.fs j.base j.encoder.ext), [Step.choosePath]⟩
        = (⟨fsE, some (get_output_fn w.fs j.base j.encoder.ext),
            [Step.choosePath, Step.extract]⟩, none)
      ∧ w.fs ⊆ fsE := by
    rcases hex with hc | hok
    · refine ⟨w.fs, ?_, fun x hx => hx⟩
      unfold step_extract
      rw [hc]
      rfl
    · cases hc : extract_commands j with
      | nil =>
        refine ⟨w.fs, ?_, fun x hx => hx⟩
        unfold step_extract
        rw [hc]
        rfl
      | cons a t =>
        refine ⟨j.wav :: w.fs, ?_, List.subset_cons_self _ _⟩
        unfold step_extract
        rw [hc, hok]
        rfl
  obtain ⟨fsE, hse, hsub⟩ := hextract
  have hsen : step_encode w.encodeOk
      ⟨fsE, some (get_output_fn w.fs j.base j.encoder.ext), [Step.choosePath, Step.extract]⟩
      = (⟨get_output_fn w.fs j.base j.encoder.ext :: fsE,
          some (get_output_fn w.fs j.base j.encoder.ext),
          [Step.choosePath, Step.extract, Step.encodeStep]⟩, none) := by
    unfold step_encode
    rw [hen]
    rfl
  have hT := tag_file_ok j w.tagEnv src out0 hs ho hv
  have hstg : step_tag j w.tagEnv
      ⟨get_output_fn w.fs j.base j.encoder.ext :: fsE,
        some (get_output_fn w.fs j.base j.encoder.ext),
        [Step.choosePath, Step.extract, Step.encodeStep]⟩
      = (⟨get_output_fn w.fs j.base j.encoder.ext :: fsE,
          some (get_output_fn w.fs j.base j.encoder.ext),
          [Step.choosePath, Step.extract, Step.encodeStep, Step.tag]⟩,
         .ok (if w.tagEnv.mergeOk then tagsUpdate (applyOverrides j out0) src
              else applyOverrides j out0)) := by
    unfold step_tag
    rw [hT]
    rfl
  have hscl : ∃ fs5,
      step_cleanup j
          ⟨get_output_fn w.fs j.base j.encoder.ext :: fsE,
            some (get_output_fn w.fs j.base j.encoder.ext),
            [Step.choosePath, Step.extract, Step.encodeStep, Step.tag]⟩
        = (⟨fs5, some (get_output_fn w.fs j.base j.encoder.ext),
            [Step.choosePath, Step.extract, Step.encodeStep, Step.tag, Step.cleanup]⟩, none)
      ∧ ∀ x, x ∈ w.fs → (j.tmp_wav_remove = false ∨ x ≠ j.wav) → x ∈ fs5 := by
    cases hr : j.tmp_wav_remove with
    | false =>
      refine ⟨get_output_fn w.fs j.base j.encoder.ext :: fsE, ?_, ?_⟩
      · unfold step_cleanup cleanup_step
        rw [hr]
        rfl
      · intro x hx hcond
        exact List.mem_cons_of_mem _ (hsub hx)
    | true =>
      have hwv : j.wav ∈ w.fs := hcl.resolve_left (by simp [hr])
      have hw2 : j.wav ∈ get_output_fn w.fs j.base j.encoder.ext :: fsE :=
        List.mem_cons_of_mem _ (hsub hwv)
      refine ⟨(get_output_fn w.fs j.base j.encoder.ext :: fsE).erase j.wav, ?_, ?_⟩
      · unfold step_cleanup cleanup_step
        rw [hr]
        simp [hw2]
      · intro x hx hcond
        have hne : x ≠ j.wav := hcond.resolve_left (by simp [hr])
        exact (List.mem_erase_of_ne hne).mpr (List.mem_cons_of_mem _ (hsub hx))
  obtain ⟨fs5, hse5, hmem5⟩ := hscl
  have hrun : run_encode j w =
      ⟨⟨fs5, some (get_output_fn w.fs j.base j.encoder.ext),
        [Step.choosePath, Step.extract, Step.encodeStep, Step.tag, Step.cleanup]⟩,
       none,
       some (if w.tagEnv.mergeOk then tagsUpdate (applyOverrides j out0) src
             else applyOverrides j out0)⟩ := by
    unfold run_encode
    rw [hs1, hse, seqStep_none, hsen, seqStep_none, hstg, seqTag_ok, hse5, seqCleanup_none]
  rw [hrun]
  exact ⟨rfl, rfl, hmem5⟩

theorem jFlac_base : jFlac.base = "a" := by decide

theorem getOutAux_a_nil : getOutAux [] ".ogg" "a" = "a.ogg" := by
  rw [getOutAux]
  simp

theorem getOutAux_a_wav : getOutAux ["a.wav"] ".ogg" "a" = "a.ogg" := by
  rw [getOutAux]
  simp

theorem run_encode_flac_allOk : run_encode jFlac wAllOk =
    ⟨⟨["a.ogg"], some "a.ogg",
      [Step.choosePath, Step.extract, Step.encodeStep, Step.tag, Step.cleanup]⟩,
     none, some []⟩ := by
  have htag : tag_file jFlac
      { sourceTags := some [], outTags := some [], save1Ok := true, mergeOk := true,
        easyKeys := [] } = .ok [] := by decide
  have hclean : cleanup_step jFlac ["a.ogg", "a.wav"] = .ok ["a.ogg"] := by decide
  have hcmd : extract_commands jFlac = [["flac", "-d", "a.flac"]] := by decide
  have hbase : jFlac.base = "a" := by decide
  have hext : jFlac.encoder.ext = ".ogg" := by decide
  have hwav : jFlac.wav = "a.wav" := by decide
  simp [run_encode, seqStep, seqTag, seqCleanup, step_choose_path, step_extract, step_encode,
    step_tag, step_cleanup, hbase, hext, hwav, getOutAux_a_nil, hcmd, htag, hclean,
    get_output_fn, wAllOk]

theorem run_encode_flac_badTagRead : run_encode jFlac wBadTagRead =
    ⟨⟨["a.ogg", "a.wav"], some "a.ogg",
      [Step.choosePath, Step.extract, Step.encodeStep, Step.tag]⟩,
     some PyErr.tagReadSource, none⟩ := by
  have htag : tag_file jFlac
      { sourceTags := none, outTags := some [], save1Ok := true, mergeOk := true,
        easyKeys := [] } = .error PyErr.tagReadSource := by decide
  have hcmd : extract_commands jFlac = [["flac", "-d", "a.flac"]] := by decide
  have hbase : jFlac.base = "a" := by decide
  have hext : jFlac.encoder.ext = ".ogg" := by decide
  have hwav : jFlac.wav = "a.wav" := by decide
  simp [run_encode, seqStep, seqTag, seqCleanup, step_choose_path, step_extract, step_encode,
    step_tag, step_cleanup, hbase, hext, hwav, getOutAux_a_nil, hcmd, htag,
    get_output_fn, wBadTagRead]

theorem mkFragJob_fields (f : String) (enc : Encoder) (cue : CueSheet)
    (td : Option String × Option String) :
    (mkFragJob f enc cue td).filename = f
    ∧ (mkFragJob f enc cue td).wav = f
    ∧ (mkFragJob f enc cue td).tmp_wav_remove = true
    ∧ (mkFragJob f enc cue td).album = cue.album
    ∧ (mkFragJob f enc cue td).album_artist = cue.album_artist
    ∧ (mkFragJob f enc cue td).title = td.1
    ∧ (mkFragJob f enc cue td).performer = td.2 := by
  refine ⟨?_, ?_, ?_, ?_, ?_, ?_, ?_⟩ <;> rfl

theorem split_jobs_mem (cue : CueSheet) (enc : Encoder) :
    ∀ (files : List String) (i : Nat) (jobs : List Job),
      split_jobs cue enc i files = .ok jobs →
      ∀ f ∈ files, ∃ j ∈ jobs,
        j.filename = f ∧ j.wav = f ∧ j.tmp_wav_remove = true
        ∧ j.album = cue.album ∧ j.album_artist = cue.album_artist
        ∧ ∃ k, get_track_data cue k = .ok (j.title, j.performer) := by
  intro files
  induction files with
  | nil =>
    intro i jobs hok f hf
    cases hf
  | cons a rest ih =>
    intro i jobs hok f hf
    unfold split_jobs at hok
    rcases htd : get_track_data cue i with e | td
    · rw [htd] at hok
      cases hok
    · rw [htd] at hok
      rcases hrest : split_jobs cue enc (i + 1) rest with e | js
      · rw [hrest] at hok
        cases hok
      · rw [hrest] at hok
        cases hok
        rcases List.mem_cons.mp hf with rfl | hfr
        · refine ⟨mkFragJob f enc cue td, List.mem_cons_self _ _, ?_⟩
          obtain ⟨h1, h2, h3, h4, h5, h6, h7⟩ := mkFragJob_fields f enc cue td
          exact ⟨h1, h2, h3, h4, h5, i, by rw [h6, h7]; exact htd⟩
        · obtain ⟨j, hj, hprops⟩ := ih (i + 1) js hrest f hfr
          exact ⟨j, List.mem_cons_of_mem _ hj, hprops⟩

theorem match_file_mem (dirPath : String) (listing : List String) (f : String) :
    f ∈ match_file dirPath listing ↔
      ∃ n ∈ listing, fragMatch n = true ∧ f = pyJoin dirPath n := by
  unfold match_file
  rw [pySortList_mem]
  simp only [List.mem_map, List.mem_filter]
  constructor
  · rintro ⟨n, ⟨hn, hfm⟩, rfl⟩
    exact ⟨n, hn, hfm, rfl⟩
  · rintro ⟨n, hn, hfm, rfl⟩
    exact ⟨n, ⟨hn, hfm⟩, rfl⟩

theorem match_file_sorted (dirPath : String) (listing : List String) :
    (match_file dirPath listing).Pairwise (fun a b => pyLe a b = true) :=
  pySortList_pairwise _

theorem cleanup_removes (j : Job) (fs : List String)
    (hr : j.tmp_wav_remove = true) (hw : j.wav ∈ fs) (hnd : fs.Nodup) :
    cleanup_step j fs = .ok (fs.erase j.wav) ∧ j.wav ∉ fs.erase j.wav := by
  constructor
  · unfold cleanup_step
    rw [hr]
    simp [hw]
  · intro hmem
    have h2 := hnd.mem_erase_iff.mp hmem
    exact h2.1 rfl

theorem fragTail_build (ds : List Char) (c : Char) (hne : ds ≠ [])
    (hdig : ∀ d ∈ ds, d.isDigit = true) (hc : c ≠ '\n') :
    fragTail (ds ++ c :: ['w', 'a', 'v']) = true := by
  have hlp : 1 ≤ ds.length := List.length_pos.mpr hne
  have hlen : (ds ++ c :: ['w', 'a', 'v']).length = ds.length + 4 := by simp
  have hdrop3 : (ds ++ c :: ['w', 'a', 'v']).drop (ds.length + 4 - 3) = ['w', 'a', 'v'] := by
    have he : ds ++ c :: ['w', 'a', 'v'] = (ds ++ [c]) ++ ['w', 'a', 'v'] := by simp
    have hl : (ds ++ [c]).length = ds.length + 1 := by simp
    have h43 : ds.length + 4 - 3 = ds.length + 1 := by omega
    rw [h43, he, ← hl, List.drop_left]
  have hget4 : (ds ++ c :: ['w', 'a', 'v'])[ds.length + 4 - 4]? = some c := by
    have h44 : ds.length + 4 - 4 = ds.length := by omega
    rw [h44, List.getElem?_append]
    simp
  have htake4 : (ds ++ c :: ['w', 'a', 'v']).take (ds.length + 4 - 4) = ds := by
    have h44 : ds.length + 4 - 4 = ds.length := by omega
    rw [h44, List.take_left]
  unfold fragTail
  rw [hlen, hdrop3, hget4, htake4]
  simp only [Bool.and_eq_true]
  refine ⟨⟨⟨decide_eq_true (by omega), ?_⟩, ?_⟩, ?_⟩
  · simp
  · simp [hc]
  · exact List.all_eq_true.mpr hdig

theorem fragMatch_iff (s : String) (hnl : '\n' ∉ s.toList) :
    fragMatch s = true ↔
      ∃ (pre ds : List Char) (c : Char),
        s.toList = pre ++ '_' :: (ds ++ c :: ['w', 'a', 'v'])
        ∧ ds ≠ [] ∧ ∀ d ∈ ds, d.isDigit = true := by
  have hlast : (s.toList.getLast? == some '\n') = false := by
    cases hg : s.toList.getLast? with
    | none => rfl
    | some c =>
      have hc : c ∈ s.toList := List.mem_of_mem_getLast? hg
      by_cases he : c = '\n'
      · exact absurd (he ▸ hc) hnl
      · simp [he]
  have hcs : fragMatch s = (List.range s.toList.length).any (fun i =>
      ((s.toList.take i).all (fun c => !(c == '\n'))) && (s.toList[i]? == some '_') &&
      fragTail (s.toList.drop (i + 1))) := by
    simp only [fragMatch]
    rw [hlast]
    simp
  rw [hcs]
  constructor
  · intro h
    obtain ⟨i, hir, hP⟩ := List.any_eq_true.mp h
    rw [List.mem_range] at hir
    simp only [Bool.and_eq_true] at hP
    obtain ⟨⟨hpre, hund⟩, htail⟩ := hP
    have hu : s.toList[i]? = some '_' := by
      exact beq_iff_eq.mp hund
    have hgetEl : s.toList[i] = '_' := by
      have hg := List.getElem?_eq_getElem hir
      rw [hg] at hu
      exact Option.some.inj hu
    have hdecomp : s.toList = s.toList.take i ++ '_' :: s.toList.drop (i + 1) := by
      have hd := (List.take_append_drop i s.toList).symm
      rw [← List.getElem_cons_drop s.toList i hir, hgetEl] at hd
      exact hd
    simp only [fragTail, Bool.and_eq_true, decide_eq_true_eq] at htail
    obtain ⟨⟨⟨hlen, hwav⟩, hc4⟩, hdig⟩ := htail
    cases hm4 : (s.toList.drop (i + 1))[(s.toList.drop (i + 1)).length - 4]? with
    | none => rw [hm4] at hc4; cases hc4
    | some c =>
      rw [hm4] at hc4
      have h4lt : (s.toList.drop (i + 1)).length - 4 < (s.toList.drop (i + 1)).length := by
        omega
      have hcv : (s.toList.drop (i + 1))[(s.toList.drop (i + 1)).length - 4] = c := by
        have hg := List.getElem?_eq_getElem h4lt
        rw [hg] at hm4
        exact Option.some.inj hm4
      have hwav2 : (s.toList.drop (i + 1)).drop ((s.toList.drop (i + 1)).length - 3)
          = ['w', 'a', 'v'] := beq_iff_eq.mp hwav
      have hm : s.toList.drop (i + 1) =
          (s.toList.drop (i + 1)).take ((s.toList.drop (i + 1)).length - 4)
            ++ c :: ['w', 'a', 'v'] := by
        have hsplit := (List.take_append_drop ((s.toList.drop (i + 1)).length - 4)
          (s.toList.drop (i + 1))).symm
        rw [← List.getElem_cons_drop _ _ h4lt, hcv] at hsplit
        have h34 : (s.toList.drop (i + 1)).length - 4 + 1
            = (s.toList.drop (i + 1)).length - 3 := by omega
        rw [h34, hwav2] at hsplit
        exact hsplit
      refine ⟨s.toList.take i,
        (s.toList.drop (i + 1)).take ((s.toList.drop (i + 1)).length - 4), c, ?_, ?_, ?_⟩
      · rw [hm] at hdecomp
        exact hdecomp
      · have hl : ((s.toList.drop (i + 1)).take
            ((s.toList.drop (i + 1)).length - 4)).length
            = (s.toList.drop (i + 1)).length - 4 := by
          rw [List.length_take]
          omega
        apply List.ne_nil_of_length_pos
        omega
      · exact List.all_eq_true.mp hdig
  · rintro ⟨pre, ds, c, hdec, hne, hdig⟩
    apply List.any_eq_true.mpr
    have hclen : s.toList.length = pre.length + ds.length + 5 := by
      rw [hdec]
      simp
      omega
    refine ⟨pre.length, ?_, ?_⟩
    · rw [List.mem_range]
      omega
    · simp only [Bool.and_eq_true]
      have hcmem : c ∈ s.toList := by
        rw [hdec]
        simp
      have hcne : c ≠ '\n' := fun e => hnl (e ▸ hcmem)
      refine ⟨⟨?_, ?_⟩, ?_⟩
      · rw [hdec, List.take_left]
        apply List.all_eq_true.mpr
        intro x hx
        have hxm : x ∈ s.toList := by
          rw [hdec]
          exact List.mem_append.mpr (Or.inl hx)
        have hxne : x ≠ '\n' := fun e => hnl (e ▸ hxm)
        simp [hxne]
      · rw [hdec, List.getElem?_append]
        simp
      · have hdrop : s.toList.drop (pre.length + 1) = ds ++ c :: ['w', 'a', 'v'] := by
          rw [hdec]
          have he : pre ++ '_' :: (ds ++ c :: ['w', 'a', 'v'])
              = (pre ++ ['_']) ++ (ds ++ c :: ['w', 'a', 'v']) := by simp
          have hl : (pre ++ ['_']).length = pre.length + 1 := by simp
          rw [he, ← hl, List.drop_left]
        rw [hdrop]
        exact fragTail_build ds c hne hdig hcne

/-! ## Claim theorems -/

/-- C1: evaluating _tag_file on a job whose cue-derived metadata provides a
title while the source file tags also provide one, with every library call
succeeding: the persisted title is the source value, not the cue value,
because out_tag.update(tag) at line 257 overwrites the override written at
line 253. This contradicts the claimed precedence of cue-derived metadata. -/
theorem C1_source_tag_overwrites_cue_title :
    tag_file jCue envBoth = .ok [("title", ["Src"])]
    ∧ jCue.title = some "Cue"
    ∧ envBoth.sourceTags = some [("title", ["Src"])]
    ∧ (tag_file jCue envBoth).map (fun t => getKey t "title") ≠ .ok (some ["Cue"]) := by
  decide

/-- C2 (counterexample): a concrete flac job in an all-success world completes
with no error, yet the executed trace of encode() is not the claimed
extract-first order: the output path is chosen (line 210) strictly before
extraction runs (line 211). -/
theorem C2_counterexample_choose_before_extract :
    (run_encode jFlac wAllOk).err = none
    ∧ (run_encode jFlac wAllOk).st.log ≠
        [Step.extract, Step.choosePath, Step.encodeStep, Step.tag, Step.cleanup]
    ∧ (run_encode jFlac wAllOk).st.log.indexOf Step.choosePath
        < (run_encode jFlac wAllOk).st.log.indexOf Step.extract := by
  rw [run_encode_flac_allOk]
  exact ⟨rfl, by decide, by decide⟩

/-- C2 (amended): within a single job the steps run strictly sequentially in
the order choose-output-path, extract, encode, tag, cleanup; every job that
completes without error has executed exactly that trace. -/
theorem C2_amended_step_order (j : Job) (w : World)
    (h : (run_encode j w).err = none) :
    (run_encode j w).st.log =
      [Step.choosePath, Step.extract, Step.encodeStep, Step.tag, Step.cleanup] :=
  run_encode_err_none j w h

/-- C2 (witness): the amended order theorem applied to the concrete flac job
in the all-success world. -/
theorem C2_witness :
    (run_encode jFlac wAllOk).st.log =
      [Step.choosePath, Step.extract, Step.encodeStep, Step.tag, Step.cleanup] :=
  C2_amended_step_order jFlac wAllOk (by rw [run_encode_flac_allOk])

/-- C3: looking up track metadata for a fragment index beyond the last cue
track raises IndexError (get_track_data, line 99), and nothing in the
fragment-job loop of _split_file catches it, so the whole job construction
aborts with the error instead of degrading to empty metadata: with a one-track
cue sheet and two split fragments the run fails. -/
theorem C3_index_error_aborts_run :
    get_track_data cueOne 1 = .error PyErr.indexError
    ∧ split_file_jobs cueOne oggE "d" ["x_1.wav", "x_2.wav"] = .error PyErr.indexError := by
  decide

/-- C4: for every job and filesystem state, _get_output_fn returns the first
name in the probe sequence base+ext, base+suffix+ext, base+suffix+suffix+ext,
and so on, that does not exist; the returned path never names an existing
file, and calling again after the chosen path has been created yields a
different path. -/
theorem C4_output_path_selection (j : Job) (fs : List String) :
    get_output_fn fs j.base j.encoder.ext ∉ fs
    ∧ (∃ n, get_output_fn fs j.base j.encoder.ext = candidate j.base j.encoder.ext n
        ∧ candidate j.base j.encoder.ext n ∉ fs
        ∧ ∀ m, m < n → candidate j.base j.encoder.ext m ∈ fs)
    ∧ get_output_fn (get_output_fn fs j.base j.encoder.ext :: fs) j.base j.encoder.ext
        ≠ get_output_fn fs j.base j.encoder.ext := by
  refine ⟨get_output_fn_not_mem _ _ _, ?_, ?_⟩
  · obtain ⟨n, h1, h2, h3⟩ := getOutAux_spec fs j.encoder.ext j.base
    exact ⟨n, h1, h2, h3⟩
  · intro heq
    have hn := get_output_fn_not_mem
      (get_output_fn fs j.base j.encoder.ext :: fs) j.base j.encoder.ext
    rw [heq] at hn
    exact hn (List.mem_cons_self _ _)

/-- C5: album-level PERFORMER and TITLE lines set album-artist and album;
PERFORMER and TITLE lines inside a track (not themselves containing TRACK)
set the performer and title of the most recently opened track; and the
two-track scenario parses to album Album, album-artist A, two tracks, with
getTrackData 0 returning the first track's title and performer. -/
theorem C5_cue_parse_assignment :
    (∀ (st : PState) (line : List Char) (v : String),
       st.in_track = false → performerP (pyUpper (pyStrip line)) = true →
       splitQuote1 line = .ok v →
       parse_line st line = .ok { st with album_artist := some v })
    ∧ (∀ (st : PState) (line : List Char) (v : String),
       st.in_track = false → titleP (pyUpper (pyStrip line)) = true →
       splitQuote1 line = .ok v →
       parse_line st line = .ok { st with album := some v })
    ∧ (∀ (st : PState) (line : List Char) (v : String) (ts : List CueTrack) (t : CueTrack),
       st.in_track = true → trackP (pyUpper (pyStrip line)) = false →
       performerP (pyUpper (pyStrip line)) = true →
       splitQuote1 line = .ok v → st.tracks = ts ++ [t] →
       parse_line st line = .ok { st with tracks := ts ++ [{ t with performer := some v }] })
    ∧ (∀ (st : PState) (line : List Char) (v : String) (ts : List CueTrack) (t : CueTrack),
       st.in_track = true → trackP (pyUpper (pyStrip line)) = false →
       titleP (pyUpper (pyStrip line)) = true →
       splitQuote1 line = .ok v → st.tracks = ts ++ [t] →
       parse_line st line = .ok { st with tracks := ts ++ [{ t with title := some v }] })
    ∧ parse_cue cueScenario =
        .ok ⟨some "A", some "Album", [⟨some "P1", some "T1"⟩, ⟨some "P2", some "T2"⟩]⟩
    ∧ (parse_cue cueScenario).map (fun c => c.tracks.length) = .ok 2
    ∧ (do
        let c ← parse_cue cueScenario
        get_track_data c 0) = .ok (some "T1", some "P1") := by
  refine ⟨?_, ?_, ?_, ?_, by decide, by decide, by decide⟩
  · intro st line v hin hperf hsq
    have hrem := performerP_remP_false _ hperf
    simp [parse_line, hin, hrem, hperf, hsq, Except.map]
  · intro st line v hin htit hsq
    have hrem := titleP_remP_false _ htit
    have hperf := titleP_performerP_false _ htit
    simp [parse_line, hin, hrem, hperf, htit, hsq, Except.map]
  · intro st line v ts t hin htr hperf hsq hts
    simp [parse_line, hin, htr, hperf, hsq, hts, setLast_append, Except.map]
  · intro st line v ts t hin htr htit hsq hts
    have hperf := titleP_performerP_false _ htit
    simp [parse_line, hin, htr, hperf, htit, hsq, hts, setLast_append, Except.map]

/-- C5 (witness): the album-level PERFORMER rule applied to a concrete line
and initial parser state. -/
theorem C5_witness :
    parse_line ⟨false, none, none, []⟩ "PERFORMER \"X\"".toList
      = .ok ⟨false, some "X", none, []⟩ :=
  C5_cue_parse_assignment.1 ⟨false, none, none, []⟩ "PERFORMER \"X\"".toList "X"
    rfl (by decide) (by decide)

/-- C6 (counterexample): a recognized PERFORMER line containing exactly one
double quote does not make parsing fail; the parser extracts the text after
the single quote and produces a CueSheet. -/
theorem C6_counterexample_one_quote :
    parse_cue "PERFORMER \"A" = .ok ⟨some "A", none, []⟩ := by
  decide

/-- C6 (amended): with at least two quotes the extracted value is exactly the
text between the first and the second double quote; with exactly one quote
the value is the whole text after that quote and no failure occurs; only a
recognized line with no double quote at all raises IndexError, which nothing
catches, so parsing that cue text fails. -/
theorem C6_amended_quote_rule :
    (∀ (line pre mid suf : List Char), '"' ∉ pre → '"' ∉ mid →
       line = pre ++ '"' :: (mid ++ '"' :: suf) →
       splitQuote1 line = .ok (String.mk mid))
    ∧ (∀ (line pre mid : List Char), '"' ∉ pre → '"' ∉ mid →
       line = pre ++ '"' :: mid →
       splitQuote1 line = .ok (String.mk mid))
    ∧ (∀ line : List Char, '"' ∉ line → splitQuote1 line = .error PyErr.indexError)
    ∧ (∀ line : List Char, performerP (pyUpper (pyStrip line)) = true →
       '"' ∉ line → '\n' ∉ line →
       parse_cue (String.mk line) = .error PyErr.indexError) := by
  have hzero : ∀ line : List Char, '"' ∉ line →
      splitQuote1 line = .error PyErr.indexError := by
    intro line h
    unfold splitQuote1
    rw [pySplitChar_no_sep _ _ h]
    rfl
  refine ⟨?_, ?_, hzero, ?_⟩
  · intro line pre mid suf hp hm hline
    unfold splitQuote1
    rw [hline, pySplitChar_append _ _ _ hp, pySplitChar_append _ _ _ hm]
    simp [List.getElem?_cons_succ, List.getElem?_cons_zero]
  · intro line pre mid hp hm hline
    unfold splitQuote1
    rw [hline, pySplitChar_append _ _ _ hp, pySplitChar_no_sep _ _ hm]
    simp [List.getElem?_cons_succ, List.getElem?_cons_zero]
  · intro line hperf hq hnl
    have hsq := hzero line hq
    have hrem := performerP_remP_false _ hperf
    have hlines : pySplitChar '\n' (String.mk line).toList = [line] := by
      have hid : (String.mk line).toList = line := rfl
      rw [hid, pySplitChar_no_sep _ _ hnl]
    unfold parse_cue
    rw [hlines]
    simp [List.foldlM, parse_line, hrem, hperf, hsq, Except.map, Functor.map]

/-- C6 (witness): the two-quote extraction rule applied to a concrete TITLE
line. -/
theorem C6_witness :
    splitQuote1 "TITLE \"X\" rest".toList = .ok (String.mk "X".toList) :=
  C6_amended_quote_rule.1 "TITLE \"X\" rest".toList "TITLE ".toList "X".toList
    " rest".toList (by decide) (by decide) (by decide)

/-- C7 (counterexample): a failure while reading the source tags, which is
part of the tagging step, aborts the job: the run ends with the error and
cleanup is never reached, contradicting the claim that no tagging-step
failure aborts the job. -/
theorem C7_counterexample_source_read_aborts :
    (run_encode jFlac wBadTagRead).err = some PyErr.tagReadSource
    ∧ Step.cleanup ∉ (run_encode jFlac wBadTagRead).st.log := by
  rw [run_encode_flac_badTagRead]
  exact ⟨rfl, by decide⟩

/-- C7 (amended): only a failure of the guarded merge (out_tag.update plus the
second save, lines 256-258) is swallowed: under success of extraction,
encoding, both tag reads and the first save, the job completes and reaches
cleanup whatever the merge outcome; failures reading the source tags, opening
the output tags, or in the first save propagate out of _tag_file and abort
the job. -/
theorem C7_amended_merge_only_swallowed (j : Job) (w : World) (src out0 : Tags)
    (hex : extract_commands j = [] ∨ w.extractOk = true)
    (hen : w.encodeOk = true)
    (hs : w.tagEnv.sourceTags = some src) (ho : w.tagEnv.outTags = some out0)
    (hv : w.tagEnv.save1Ok = true)
    (hcl : j.tmp_wav_remove = false ∨ j.wav ∈ w.fs) :
    ((run_encode j w).err = none ∧ Step.cleanup ∈ (run_encode j w).st.log)
    ∧ (∀ env : TagEnv, env.sourceTags = none →
        tag_file j env = .error PyErr.tagReadSource)
    ∧ (∀ env : TagEnv, env.sourceTags = some src → env.outTags = none →
        tag_file j env = .error PyErr.tagReadOut)
    ∧ (∀ env : TagEnv, env.sourceTags = some src → env.outTags = some out0 →
        env.save1Ok = false → tag_file j env = .error PyErr.tagSave) := by
  obtain ⟨h1, h2, _⟩ := run_encode_success_shape j w src out0 hex hen hs ho hv hcl
  refine ⟨⟨h1, ?_⟩, ?_, ?_, ?_⟩
  · rw [h2]
    decide
  · exact fun env he => tag_file_src_error j env he
  · exact fun env hs2 ho2 => tag_file_out_error j env src hs2 ho2
  · exact fun env hs2 ho2 hv2 => tag_file_save_error j env src out0 hs2 ho2 hv2

/-- C7 (witness): the amended theorem applied to the concrete flac job in a
world where only the guarded merge fails: the job still succeeds. -/
theorem C7_witness :
    (((run_encode jFlac wMergeFail).err = none
        ∧ Step.cleanup ∈ (run_encode jFlac wMergeFail).st.log)
      ∧ (∀ env : TagEnv, env.sourceTags = none →
          tag_file jFlac env = .error PyErr.tagReadSource)
      ∧ (∀ env : TagEnv, env.sourceTags = some [] → env.outTags = none →
          tag_file jFlac env = .error PyErr.tagReadOut)
      ∧ (∀ env : TagEnv, env.sourceTags = some [] → env.outTags = some [] →
          env.save1Ok = false → tag_file jFlac env = .error PyErr.tagSave)) :=
  C7_amended_merge_only_swallowed jFlac wMergeFail [] []
    (Or.inr rfl) rfl rfl rfl rfl (Or.inr (by decide))

/-- C8: a WavType job built directly from a .wav input uses the source itself
as the intermediate, invokes no external extraction process, is flagged as not
owning the intermediate, and its cleanup deletes nothing; in a world where
encoding and tagging succeed, the job completes and the original source file
still exists afterwards. -/
theorem C8_wav_passthrough (filename : String) (enc : Encoder) (w : World)
    (src out0 : Tags)
    (hen : w.encodeOk = true) (hs : w.tagEnv.sourceTags = some src)
    (ho : w.tagEnv.outTags = some out0) (hv : w.tagEnv.save1Ok = true)
    (hmem : filename ∈ w.fs) :
    (mkWavType filename enc).wav = filename
    ∧ (mkWavType filename enc).tmp_wav_remove = false
    ∧ extract_commands (mkWavType filename enc) = []
    ∧ (∀ fs : List String, cleanup_step (mkWavType filename enc) fs = .ok fs)
    ∧ (run_encode (mkWavType filename enc) w).err = none
    ∧ filename ∈ (run_encode (mkWavType filename enc) w).st.fs := by
  have hcmd : extract_commands (mkWavType filename enc) = [] := rfl
  have hrm : (mkWavType filename enc).tmp_wav_remove = false := rfl
  obtain ⟨h1, h2, h3⟩ := run_encode_success_shape (mkWavType filename enc) w src out0
    (Or.inl hcmd) hen hs ho hv (Or.inl hrm)
  refine ⟨rfl, rfl, hcmd, ?_, h1, h3 filename hmem (Or.inl hrm)⟩
  intro fs
  simp [cleanup_step, hrm]

/-- C8 (witness): the pass-through theorem applied to a concrete .wav file
present in the filesystem of a world where every library call succeeds. -/
theorem C8_witness :
    (mkWavType "a.wav" oggE).wav = "a.wav"
    ∧ (mkWavType "a.wav" oggE).tmp_wav_remove = false
    ∧ extract_commands (mkWavType "a.wav" oggE) = []
    ∧ (∀ fs : List String, cleanup_step (mkWavType "a.wav" oggE) fs = .ok fs)
    ∧ (run_encode (mkWavType "a.wav" oggE) wMergeFail).err = none
    ∧ "a.wav" ∈ (run_encode (mkWavType "a.wav" oggE) wMergeFail).st.fs :=
  C8_wav_passthrough "a.wav" oggE wMergeFail [] [] rfl rfl rfl rfl (by decide)

/-- C9: the guard at line 241 compares the Encoder instance in self.encoder
against the string mp3, which is always False in Python, so _mp3_tag is
unreachable and _tag_file always equals its generic (guard-free) tagging
path, whatever the selected encoder. -/
theorem C9_mp3_guard_unreachable :
    (∀ e : Encoder, encoderEqMp3Str e = false)
    ∧ ∀ (j : Job) (env : TagEnv), tag_file j env = tag_file_generic j env := by
  refine ⟨fun e => rfl, fun j env => ?_⟩
  unfold tag_file tag_file_generic
  cases henv : env.sourceTags with
  | none => rfl
  | some src => simp [encoderEqMp3Str]

/-- C10: fragment discovery matches exactly the names of the form
anything, underscore, one or more digits, any single character, then wav
(the dot of the pattern being unescaped), irrespective of the split source's
base name; match_file returns the matches joined with the directory and
sorted; and each matching listing entry, including a pre-existing unrelated
file, becomes a WavType fragment job that owns its intermediate, carries the
cue album metadata and positional track data, and whose cleanup deletes the
file. -/
theorem C10_fragment_pattern_and_cleanup :
    (∀ s : String, '\n' ∉ s.toList →
       (fragMatch s = true ↔
         ∃ (pre ds : List Char) (c : Char),
           s.toList = pre ++ '_' :: (ds ++ c :: ['w', 'a', 'v'])
           ∧ ds ≠ [] ∧ ∀ d ∈ ds, d.isDigit = true))
    ∧ (∀ (dirPath : String) (listing : List String) (f : String),
         f ∈ match_file dirPath listing ↔
           ∃ n ∈ listing, fragMatch n = true ∧ f = pyJoin dirPath n)
    ∧ (∀ (dirPath : String) (listing : List String),
         (match_file dirPath listing).Pairwise (fun a b => pyLe a b = true))
    ∧ (∀ (cue : CueSheet) (enc : Encoder) (dirPath : String) (listing : List String)
         (jobs : List Job) (name : String),
         split_file_jobs cue enc dirPath listing = .ok jobs →
         name ∈ listing → fragMatch name = true →
         ∃ j ∈ jobs,
           j.filename = pyJoin dirPath name ∧ j.wav = j.filename
           ∧ j.tmp_wav_remove = true
           ∧ j.album = cue.album ∧ j.album_artist = cue.album_artist
           ∧ (∃ k, get_track_data cue k = .ok (j.title, j.performer))
           ∧ ∀ fs : List String, fs.Nodup → j.filename ∈ fs →
               cleanup_step j fs = .ok (fs.erase j.filename)
               ∧ j.filename ∉ fs.erase j.filename) := by
  refine ⟨fragMatch_iff, match_file_mem, match_file_sorted, ?_⟩
  intro cue enc dirPath listing jobs name hok hmem hfm
  have hjoin : pyJoin dirPath name ∈ match_file dirPath listing :=
    (match_file_mem dirPath listing _).mpr ⟨name, hmem, hfm, rfl⟩
  obtain ⟨j, hj, h1, h2, h3, h4, h5, k, hk⟩ :=
    split_jobs_mem cue enc (match_file dirPath listing) 0 jobs hok _ hjoin
  have hwj : j.wav = j.filename := by rw [h2, h1]
  refine ⟨j, hj, h1, hwj, h3, h4, h5, ⟨k, hk⟩, ?_⟩
  intro fs hnd hmemf
  have hw : j.wav ∈ fs := by rw [hwj]; exact hmemf
  obtain ⟨hc1, hc2⟩ := cleanup_removes j fs h3 hw hnd
  rw [hwj] at hc1 hc2
  exact ⟨hc1, hc2⟩

/-- C10 (witness): with a two-track cue sheet and a listing containing a
pre-existing unrelated matching file, that file becomes a fragment job with
cue metadata whose cleanup deletes it. -/
theorem C10_witness :
    ∃ j ∈ [mkFragJob "d/pre_2.wav" oggE cueTwo (some "T1", some "P1"),
           mkFragJob "d/x_1.wav" oggE cueTwo (some "T2", some "P2")],
      j.filename = pyJoin "d" "pre_2.wav" ∧ j.wav = j.filename
      ∧ j.tmp_wav_remove = true
      ∧ j.album = cueTwo.album ∧ j.album_artist = cueTwo.album_artist
      ∧ (∃ k, get_track_data cueTwo k = .ok (j.title, j.performer))
      ∧ ∀ fs : List String, fs.Nodup → j.filename ∈ fs →
          cleanup_step j fs = .ok (fs.erase j.filename)
          ∧ j.filename ∉ fs.erase j.filename :=
  C10_fragment_pattern_and_cleanup.2.2.2 cueTwo oggE "d" ["x_1.wav", "pre_2.wav"]
    [mkFragJob "d/pre_2.wav" oggE cueTwo (some "T1", some "P1"),
     mkFragJob "d/x_1.wav" oggE cueTwo (some "T2", some "P2")]
    "pre_2.wav" (by decide) (by decide) (by decide)
